import Mathlib

/-!
Verification development for the File2LongImage parallel scheduler
(`mac_app_parallel.py` together with `error_logger.py`).

The scheduler core is shallowly embedded as an executable small-step system:

* `TaskState` mirrors the mutable fields of the `FileTask` dataclass.
* `WPc` is the program counter of one `convert_file_worker` invocation; each
  constructor is a contiguous block of the worker body that Python executes
  between possible thread switches, and `workerMicro` is its transition
  function.
* Controller handlers (`start_task`, `pause_selected`/`pause_all`,
  `cancel_selected`/`cancel_all`, `retry_selected`, `remove_selected`,
  `add_files`) become cases of `stepTCB` and the registry operations.
* External collaborators (file system, Poppler/pdf2image, LibreOffice, PIL
  save) are opaque; an `Env` record fixes their outcomes for a run.

Interleaving of the Tk main thread with the pool workers is modelled by a
list of events (`Ev`), each executed atomically; `task.future.cancel()` is
modelled as a no-op because it only prevents a not-yet-started worker from
running, which in this model corresponds to simply never scheduling its
`workerStep` events.
-/

set_option maxHeartbeats 1000000

namespace File2LongImage

/-- FileStatus enumeration from `mac_app_parallel.py`. -/
inductive FileStatus where
  | pending
  | processing
  | paused
  | completed
  | failed
  | cancelled
  deriving DecidableEq, Repr

/-- ConversionStep enumeration from `mac_app_parallel.py`. -/
inductive ConversionStep where
  | detecting
  | convertingToPdf
  | loadingPdf
  | renderingPages
  | mergingImages
  | savingOutput
  | completed
  deriving DecidableEq, Repr

/-- The `.value` string of each `ConversionStep` member (used for
`task.current_step`, which the source stores as a string). -/
def ConversionStep.value : ConversionStep → String
  | .detecting => "检测文件"
  | .convertingToPdf => "转换PDF"
  | .loadingPdf => "加载PDF"
  | .renderingPages => "渲染页面"
  | .mergingImages => "合并图片"
  | .savingOutput => "保存文件"
  | .completed => "完成"

/-- Fields of `ErrorLog` (`error_logger.py`) that the scheduler core reads or
writes.  The remaining fields (`system_info`, file size/hash, versions,
`conversion_params`, `traceback`) are diagnostics gathered from the
environment by the collaborator and are opaque to the task model. -/
structure ErrorLog where
  fileName : String
  filePath : String
  errorMessage : String
  errorStep : String
  elapsedTime : Option Nat
  deriving DecidableEq, Repr

/-- `ErrorLogger.create_error_log`, restricted to the modelled fields:
it packages the failing file, the exception message (`str(error)`), the step
at which the error occurred and the elapsed time into a structured log. -/
def createErrorLog (filePath fileName : String) (errorMessage errorStep : String)
    (elapsedTime : Option Nat) : ErrorLog :=
  { fileName := fileName
    filePath := filePath
    errorMessage := errorMessage
    errorStep := errorStep
    elapsedTime := elapsedTime }

/-- A page image produced by the converter: a PIL `Image` abstracted to its
pixel size (`img.width`, `img.height`). -/
structure Img where
  w : Nat
  h : Nat
  deriving DecidableEq, Repr

/-- Mutable fields of the `FileTask` dataclass.  `progress` is a Python float
holding exact decimal/rational values in this program, modelled as `ℚ`;
`current_step` is `""` initially and otherwise a `ConversionStep.value`
string, modelled as `Option ConversionStep`; `pause_event`/`cancel_event`
are `threading.Event`s, modelled by their boolean is-set state
(`__post_init__` sets the pause event, i.e. "not paused"). -/
structure TaskState where
  filePath : String
  fileName : String
  status : FileStatus := .pending
  progress : ℚ := 0
  currentStep : Option ConversionStep := none
  errorMessage : String := ""
  errorLog : Option ErrorLog := none
  startTime : Option Nat := none
  endTime : Option Nat := none
  outputPath : Option String := none
  cancelEvent : Bool := false
  pauseEvent : Bool := true
  deriving DecidableEq, Repr

/-- Outcomes of the external collaborators during one conversion attempt:
whether the source file exists, whether LibreOffice is configured
(`LIBREOFFICE_PATH is not None`), the outcome of `convert_to_pdf` —
`convRaise` is the message of an exception escaping the call itself
(`convert_to_pdf` has uncaught raise sites: `os.makedirs` and
`subprocess.run`, e.g. a missing configured binary), while `convPdf` is its
return value when it returns —, the size/existence checks on the produced
intermediate PDF, the pages returned by `convert_pdf_parallel` (which
catches its own exceptions and returns `[]` on failure), whether the final
PIL `save` raises, and the computed output path string. -/
structure Env where
  fileExists : Bool
  libreAvailable : Bool
  convRaise : Option String
  convPdf : Option String
  convPdfExists : Bool
  convPdfSize : Nat
  images : List Img
  saveErr : Option String
  outputName : String

/-- Lower-case a string, as `str.lower()` does for ASCII file extensions. -/
def lowerStr (s : String) : String := ⟨s.data.map Char.toLower⟩

/-- String suffix test (`str.endswith`). -/
def endsWithStr (s suff : String) : Bool := List.isSuffixOf suff.data s.data

/-- `task.file_path.lower().endswith('.pdf')`. -/
def isPdfPath (p : String) : Bool := endsWithStr (lowerStr p) ".pdf"

/-- The office-document extensions accepted by `convert_file_worker`. -/
def officeExts : List String :=
  [".doc", ".docx", ".ppt", ".pptx", ".csv", ".xls", ".xlsx", ".odt", ".rtf", ".txt"]

/-- `task.file_path.lower().endswith((".doc", ...))`. -/
def isOfficePath (p : String) : Bool :=
  officeExts.any (fun e => endsWithStr (lowerStr p) e)

/-- Characters after the last `.`, if any (helper for `extOf`). -/
def extAux : List Char → Option (List Char)
  | [] => none
  | c :: cs =>
      match extAux cs with
      | some e => some e
      | none => if c = '.' then some cs else none

/-- `os.path.splitext(p)[1]`: the final dot-extension of a path, or `""`. -/
def extOf (p : String) : String :=
  match extAux p.data with
  | some e => "." ++ ⟨e⟩
  | none => ""

/-- `os.path.basename`: last `/`-separated component. -/
def basename (p : String) : String :=
  ⟨p.data.foldl (fun acc c => if c = '/' then [] else acc ++ [c]) []⟩

/-- `update_task_progress`: store the step's `.value` and the new progress.
The UI-queue push performed afterwards does not touch task state. -/
def updateProgress (st : ConversionStep) (p : ℚ) (t : TaskState) : TaskState :=
  { t with currentStep := some st, progress := p }

/-- Program counter of one `convert_file_worker` invocation.  Each constructor
names the next contiguous block of the worker body to execute:

* `start` — the initial `if task.cancel_event.is_set()` checkpoint;
* `detect1` — `update_task_progress(DETECTING, 10)`;
* `detect2` — the `os.path.exists` check;
* `pauseWait` — `task.pause_event.wait()`;
* `branch` — dispatch on the file extension;
* `pdfMark`/`pdfRun` — progress mark `(RENDERING_PAGES, 20)`, then the
  `convert_pdf_parallel` call and its empty-result check;
* `officeMark`/`officeConvRun` — progress mark `(CONVERTING_TO_PDF, 20)`,
  then `convert_to_pdf` and its result checks;
* `officeRenderMark`/`officeRun` — progress mark `(RENDERING_PAGES, 50)`,
  then `convert_pdf_parallel` on the intermediate PDF;
* `cancel2` — the second `if task.cancel_event.is_set()` checkpoint;
* `mergeMark` — `update_task_progress(MERGING_IMAGES, 70)`;
* `mergeLoop i` — iteration `i` of the paste loop in `merge_images_fast`
  (per-iteration cancel check, paste, progress update);
* `saveRun` — the final save inside `merge_images_fast` plus the
  assignment `task.output_path = ...` in the worker;
* `completeWrite` — the `if not task.output_path` re-check and the
  completion writes (`COMPLETED`, `end_time`, `progress = 100`);
* `catchE msg` — the `except Exception` block, entered with `str(e) = msg`;
* `done` — the worker has returned. -/
inductive WPc where
  | start
  | detect1
  | detect2
  | pauseWait
  | branch
  | pdfMark
  | pdfRun
  | officeMark
  | officeConvRun
  | officeRenderMark
  | officeRun
  | cancel2
  | mergeMark
  | mergeLoop (i : Nat)
  | saveRun
  | completeWrite
  | catchE (msg : String)
  | done
  deriving DecidableEq, Repr

/-- One atomic block of `convert_file_worker` (and of the `merge_images_fast`
call it makes), acting on the task and returning the next program counter.
`clock` is the current value of `time.time()`. -/
def workerMicro (env : Env) (clock : Nat) (t : TaskState) : WPc → TaskState × WPc
  | .start =>
      if t.cancelEvent then ({ t with status := .cancelled }, .done)
      else (t, .detect1)
  | .detect1 => (updateProgress .detecting 10 t, .detect2)
  | .detect2 =>
      if env.fileExists then (t, .pauseWait)
      else (t, .catchE ("文件不存在: " ++ t.filePath))
  | .pauseWait => if t.pauseEvent then (t, .branch) else (t, .pauseWait)
  | .branch =>
      if isPdfPath t.filePath then (t, .pdfMark)
      else if isOfficePath t.filePath then
        if env.libreAvailable then (t, .officeMark)
        else (t, .catchE "LibreOffice 未安装，无法转换Office文件")
      else (t, .catchE ("不支持的文件格式: " ++ extOf t.filePath))
  | .pdfMark => (updateProgress .renderingPages 20 t, .pdfRun)
  | .pdfRun =>
      if env.images.isEmpty then (t, .catchE "PDF转换失败: 无法从PDF提取图像")
      else (t, .cancel2)
  | .officeMark => (updateProgress .convertingToPdf 20 t, .officeConvRun)
  | .officeConvRun =>
      match env.convRaise with
      | some m => (t, .catchE m)
      | none =>
          match env.convPdf with
          | none => (t, .catchE "Office转换PDF失败: LibreOffice无法处理此文件")
          | some p =>
              if env.convPdfExists = false then
                (t, .catchE ("PDF生成失败: 临时PDF文件不存在 (" ++ p ++ ")"))
              else if env.convPdfSize = 0 then
                (t, .catchE "PDF生成失败: 生成的PDF文件为空")
              else (t, .officeRenderMark)
  | .officeRenderMark => (updateProgress .renderingPages 50 t, .officeRun)
  | .officeRun =>
      if env.images.isEmpty then
        (t, .catchE ("PDF渲染失败: 无法从临时PDF提取图像\nPDF路径: " ++
          (match env.convPdf with | some p => p | none => "") ++
          "\nPDF大小: " ++ toString env.convPdfSize ++ " bytes"))
      else (t, .cancel2)
  | .cancel2 =>
      if t.cancelEvent then ({ t with status := .cancelled }, .done)
      else (t, .mergeMark)
  | .mergeMark => (updateProgress .mergingImages 70 t, .mergeLoop 0)
  | .mergeLoop i =>
      if i < env.images.length then
        if t.cancelEvent then
          ({ t with outputPath := none }, .catchE "图像合并失败")
        else
          (updateProgress .mergingImages
            (70 + ((i : ℚ) + 1) / (env.images.length : ℚ) * 20) t, .mergeLoop (i + 1))
      else (updateProgress .savingOutput 95 t, .saveRun)
  | .saveRun =>
      match env.saveErr with
      | some m => (t, .catchE m)
      | none => ({ t with outputPath := some env.outputName }, .completeWrite)
  | .completeWrite =>
      if t.outputPath = none then (t, .catchE "图像合并失败")
      else ({ t with status := .completed, endTime := some clock, progress := 100,
                     currentStep := some .completed }, .done)
  | .catchE msg =>
      ({ t with status := .failed, errorMessage := msg, endTime := some clock,
                errorLog := some (createErrorLog t.filePath t.fileName msg
                  (match t.currentStep with
                   | some st => st.value
                   | none => "Unknown")
                  (match t.startTime with
                   | some st => some (clock - st)
                   | none => none)) },
       .done)
  | .done => (t, .done)

/-- One task together with the workers submitted for it (`task.future` and any
earlier, still-running submissions). -/
structure TCB where
  task : TaskState
  workers : List WPc := []
  deriving DecidableEq, Repr

/-- Events on a single task: the controller handlers of the Tk thread and the
next atomic block of the `i`-th submitted worker.  `retry_selected` is the
sequence `[.retryResetEv, .startTask]` (it resets the task to `PENDING` and
then calls `start_task`, two separately observable mutations). -/
inductive Ev where
  | startTask
  | pauseSel
  | cancelSel
  | retryResetEv
  | workerStep (i : Nat)
  deriving DecidableEq, Repr

/-- `Ev.workerStep` test. -/
def isWorkerEv : Ev → Bool
  | .workerStep _ => true
  | _ => false

/-- Body of `start_task` once the guard has passed: mark `PROCESSING`, record
the start time, set the pause event, clear the cancel flag and submit a new
worker to the pool. -/
def startTaskCore (clock : Nat) (b : TCB) : TCB :=
  { task := { b.task with status := .processing, startTime := some clock,
                          pauseEvent := true, cancelEvent := false }
    workers := b.workers ++ [.start] }

/-- The reset half of `retry_selected`: return the task to `PENDING`,
clearing progress, error message, current step and both timestamps
(`error_log` and `output_path` are not touched). -/
def retryReset (t : TaskState) : TaskState :=
  { t with status := .pending, progress := 0, errorMessage := "",
           currentStep := none, startTime := none, endTime := none }

/-- One atomic event on a task control block. -/
def stepTCB (env : Env) (clock : Nat) (ev : Ev) (b : TCB) : TCB :=
  match ev with
  | .startTask =>
      if b.task.status = .pending ∨ b.task.status = .paused then startTaskCore clock b
      else b
  | .pauseSel =>
      if b.task.status = .processing then
        { b with task := { b.task with pauseEvent := false, status := .paused } }
      else b
  | .cancelSel =>
      if b.task.status = .processing ∨ b.task.status = .paused then
        { b with task := { b.task with cancelEvent := true, pauseEvent := true,
                                       status := .cancelled } }
      else b
  | .retryResetEv =>
      if b.task.status = .failed then { b with task := retryReset b.task }
      else b
  | .workerStep i =>
      match b.workers.get? i with
      | none => b
      | some pc =>
          let r := workerMicro env clock b.task pc
          { task := r.1, workers := b.workers.set i r.2 }

/-- Single-task system state: the task control block plus a clock that stands
for `time.time()` and advances with every event. -/
structure SysState where
  tcb : TCB
  clock : Nat := 0
  deriving DecidableEq, Repr

/-- Execute one event. -/
def step (env : Env) (ev : Ev) (s : SysState) : SysState :=
  { tcb := stepTCB env s.clock ev s.tcb, clock := s.clock + 1 }

/-- Execute a list of events in order. -/
def run (env : Env) (s : SysState) : List Ev → SysState
  | [] => s
  | e :: es => run env (step env e s) es

/-- Observations of `f` before each event and after the last one. -/
def traceOf {α : Type} (f : SysState → α) (env : Env) (s : SysState) :
    List Ev → List α
  | [] => [f s]
  | e :: es => f s :: traceOf f env (step env e s) es

def SysState.status (s : SysState) : FileStatus := s.tcb.task.status
def SysState.progress (s : SysState) : ℚ := s.tcb.task.progress
def SysState.outPath (s : SysState) : Option String := s.tcb.task.outputPath

/-- Status observed before each event and after the last one. -/
def statuses (env : Env) (s : SysState) (evs : List Ev) : List FileStatus :=
  traceOf SysState.status env s evs

/-- Task created by `add_files`: `FileTask(task_id, file_path, basename)` with
the dataclass defaults. -/
def initTask (path : String) : TaskState :=
  { filePath := path, fileName := basename path }

/-- Freshly added task with no worker yet. -/
def initSys (path : String) : SysState := { tcb := { task := initTask path } }

/-- The task registry `self.tasks`: an insertion-ordered association list from
task id to task. -/
abbrev Registry := List (String × TaskState)

/-- Body of `add_files` for one chosen file: skip if any existing task —
whatever its status — already references the same path, otherwise append a
fresh `PENDING` task under the freshly generated id. -/
def addFile (reg : Registry) (filePath : String) (newId : String) : Registry :=
  if reg.any (fun p => p.2.filePath == filePath) then reg
  else reg ++ [(newId, initTask filePath)]

/-- Body of `remove_selected` for one selected id: delete unless the task is
`PROCESSING`. -/
def removeTask (reg : Registry) (tid : String) : Registry :=
  match reg.find? (fun p => p.1 == tid) with
  | none => reg
  | some pr =>
      if pr.2.status = .processing then reg
      else reg.filter (fun p => p.1 != tid)

/-- Multi-task system: all task control blocks plus the shared clock. -/
structure MState where
  entries : List (String × TCB)
  clock : Nat := 0

/-- An event addressed at task `tid` in the multi-task system: the worker
closure and the controller handlers only touch that task's fields. -/
def stepM (env : Env) (tid : String) (ev : Ev) (m : MState) : MState :=
  { entries := m.entries.map
      (fun p => if p.1 = tid then (p.1, stepTCB env m.clock ev p.2) else p)
    clock := m.clock + 1 }

/-- Look up a task control block by id. -/
def lookupTCB (m : MState) (tid : String) : Option TCB :=
  (m.entries.find? (fun p => p.1 == tid)).map Prod.snd

/-! ## Pure model of `merge_images_fast`

For the geometry claim the merge is modelled as a pure function from the page
list to the composite image it builds: the paste calls are recorded in order.
The progress/step side effects of the merge appear in `workerMicro`
(`mergeLoop`/`saveRun`); the save encoding parameters (format, quality,
compress level) do not affect the geometry. -/

/-- One `merged_image.paste(img, (x, y))` call. -/
structure Paste where
  x : Nat
  y : Nat
  img : Img
  deriving DecidableEq, Repr

/-- The composite image built by `merge_images_fast`:
`Image.new('RGB', (max_width, total_height), 'white')` plus the paste calls. -/
structure MergedImage where
  mode : String
  background : String
  width : Nat
  height : Nat
  pastes : List Paste
  deriving DecidableEq, Repr

/-- The paste loop of `merge_images_fast`: at iteration `i` (offset `y` so
far), stop and return `None` if the task's cancel event is set, otherwise
paste centred at `x = (max_width - img.width) // 2` and advance `y` by the
page height.  `cancelAt i` is the value of `task.cancel_event.is_set()`
observed at iteration `i`. -/
def mergeGo (cancelAt : Nat → Bool) (maxWidth : Nat) :
    Nat → Nat → List Img → Option (List Paste)
  | _, _, [] => some []
  | i, y, img :: rest =>
      if cancelAt i then none
      else
        match mergeGo cancelAt maxWidth (i + 1) (y + img.h) rest with
        | none => none
        | some ps => some ({ x := (maxWidth - img.w) / 2, y := y, img := img } :: ps)

/-- `merge_images_fast` (geometry): `None` for an empty page list, otherwise a
white RGB canvas of size `(max(widths), sum(heights))` with the pages pasted
top-to-bottom in order (or `None` if a cancel is observed mid-merge). -/
def mergeImagesFast (images : List Img) (cancelAt : Nat → Bool) :
    Option MergedImage :=
  if images.isEmpty then none
  else
    let maxWidth := (images.map Img.w).foldl Nat.max 0
    let totalHeight := (images.map Img.h).sum
    (mergeGo cancelAt maxWidth 0 0 images).map fun ps =>
      { mode := "RGB", background := "white", width := maxWidth,
        height := totalHeight, pastes := ps }

/-! ## The specification's state graph

`specEdge` is transcribed from the spec's §4.2 edge list (it is the statement
under test, not part of the code model). -/

/-- The transition edges asserted by the specification's state machine. -/
def specEdge : FileStatus → FileStatus → Bool
  | .pending, .processing => true
  | .processing, .paused => true
  | .processing, .completed => true
  | .processing, .failed => true
  | .processing, .cancelled => true
  | .paused, .processing => true
  | .paused, .cancelled => true
  | .failed, .pending => true
  | _, _ => false

/-- A status sequence is a valid walk of the spec's state graph: consecutive
observations are either equal or joined by a `specEdge`. -/
def validWalk : List FileStatus → Bool
  | [] => true
  | [_] => true
  | a :: b :: rest => (decide (a = b) || specEdge a b) && validWalk (b :: rest)

/-! ## Concrete scenario used by the counterexamples

A two-page PDF whose conversion succeeds whenever it is allowed to finish. -/

/-- Environment of a well-behaved two-page PDF conversion. -/
def env0 : Env :=
  { fileExists := true
    libreAvailable := true
    convRaise := none
    convPdf := none
    convPdfExists := false
    convPdfSize := 0
    images := [⟨100, 50⟩, ⟨80, 40⟩]
    saveErr := none
    outputName := "output/a.png" }

/-- Freshly submitted task for `a.pdf`. -/
def sys0 : SysState := initSys "a.pdf"

/-- Shorthand for a step of the first submitted worker. -/
def w0 : Ev := .workerStep 0

/-- Uninterrupted successful run of one worker on `env0`: start the task and
let the worker execute all 14 of its blocks
(start, detect1, detect2, pauseWait, branch, pdfMark, pdfRun, cancel2,
mergeMark, mergeLoop 0, mergeLoop 1, mergeLoop 2, saveRun, completeWrite). -/
def traceSuccess : List Ev := .startTask :: List.replicate 14 w0

/-- Pause arrives while the worker is inside the rendering step; the worker
never blocks again and runs to completion. -/
def tracePauseLost : List Ev :=
  .startTask :: List.replicate 6 w0 ++ [.pauseSel] ++ List.replicate 8 w0

/-- Pause while the worker is inside the merge loop, then cancel the paused
task; the merge loop observes the cancel and the worker converts it into a
failure. -/
def traceCancelToFailed : List Ev :=
  .startTask :: List.replicate 9 w0 ++ [.pauseSel, .cancelSel] ++ List.replicate 2 w0

/-- Prefix of `traceCancelToFailed` ending right after the cancel. -/
def traceCancelToFailedMid : List Ev :=
  .startTask :: List.replicate 9 w0 ++ [.pauseSel, .cancelSel]

/-- Run the success trace but stop right after `saveRun`: the output path is
already stored while the status is still `PROCESSING`. -/
def traceSaveWindow : List Ev := .startTask :: List.replicate 13 w0

/-- Pause during rendering, then resume: `start_task` submits a second worker
for the same task while the first one is still running. -/
def traceResumeDup : List Ev :=
  .startTask :: List.replicate 6 w0 ++ [.pauseSel, .startTask] ++
    [.workerStep 1, .workerStep 1]

/-- Prefix of `traceResumeDup` before the second worker's progress write. -/
def traceResumeDupMid : List Ev :=
  .startTask :: List.replicate 6 w0 ++ [.pauseSel, .startTask] ++ [.workerStep 1]

/-- State in which the worker sits at the `cancel2` checkpoint with the pause
gate closed (pause arrived during rendering). -/
def traceAtCancel2Paused : List Ev :=
  .startTask :: List.replicate 6 w0 ++ [.pauseSel] ++ [w0]

/-- Prefix of `traceCancelToFailed` ending right after the pause. -/
def tracePausedMid : List Ev := .startTask :: List.replicate 9 w0 ++ [.pauseSel]

/-- Terminal statuses. -/
def terminalB : FileStatus → Bool
  | .completed => true
  | .failed => true
  | .cancelled => true
  | _ => false

/-- Registry holding one already-completed task for `a.pdf`. -/
def regCompleted : Registry := [("t1", { initTask "a.pdf" with status := .completed })]

/-- Registry holding one paused task. -/
def regPaused : Registry := [("t1", { initTask "a.pdf" with status := .paused })]

/-- Non-decreasing predicate on a progress trace. -/
def progressMono : List ℚ → Prop
  | [] => True
  | [_] => True
  | a :: b :: rest => a ≤ b ∧ progressMono (b :: rest)

/-- Invariant of an uninterrupted single-worker run: at each program counter
the task's progress is at most every value the worker can still write from
there (writes are 10, 20, 50, 70, the merge-loop values, 95, 100, in pc
order). -/
def wInv (env : Env) (p : ℚ) : WPc → Prop
  | .start => p ≤ 10
  | .detect1 => p ≤ 10
  | .detect2 => p ≤ 10
  | .pauseWait => p ≤ 10
  | .branch => p ≤ 10
  | .pdfMark => p ≤ 20
  | .pdfRun => p ≤ 20
  | .officeMark => p ≤ 20
  | .officeConvRun => p ≤ 20
  | .officeRenderMark => p ≤ 50
  | .officeRun => p ≤ 50
  | .cancel2 => p ≤ 70
  | .mergeMark => p ≤ 70
  | .mergeLoop i => p ≤ 70 + (i : ℚ) / (env.images.length : ℚ) * 20 ∧ p ≤ 95
  | .saveRun => p ≤ 95
  | .completeWrite => p ≤ 100
  | .catchE _ => True
  | .done => True

/-- All `str(e)` values that `convert_file_worker` can catch: the worker's
own raise messages, plus the externally-texted exceptions — one escaping the
`convert_to_pdf` call (its `os.makedirs`/`subprocess.run` sites are not
wrapped) and one raised by the PIL save (`convert_pdf_parallel` catches its
own exceptions, so rendering failures surface as the worker's explicit
`ValueError`s). -/
def raiseMsgs (env : Env) (t : TaskState) : List String :=
  ["文件不存在: " ++ t.filePath,
   "LibreOffice 未安装，无法转换Office文件",
   "不支持的文件格式: " ++ extOf t.filePath,
   "PDF转换失败: 无法从PDF提取图像",
   "Office转换PDF失败: LibreOffice无法处理此文件",
   "PDF生成失败: 生成的PDF文件为空",
   "PDF渲染失败: 无法从临时PDF提取图像\nPDF路径: " ++
     (match env.convPdf with | some p => p | none => "") ++
     "\nPDF大小: " ++ toString env.convPdfSize ++ " bytes",
   "图像合并失败"] ++
  (match env.convPdf with
   | some p => ["PDF生成失败: 临时PDF文件不存在 (" ++ p ++ ")"]
   | none => []) ++
  (match env.convRaise with
   | some m => [m]
   | none => []) ++
  (match env.saveErr with
   | some m => [m]
   | none => [])
/-- Control block of the task after the cancel-in-merge failure. -/
def bFailed : TCB := (run env0 sys0 traceCancelToFailed).tcb

/-- State whose worker sits at the `except` boundary (`catchE`). -/
def sAtCatch : SysState := run env0 sys0 (traceCancelToFailedMid ++ [w0])

/-- Two-task registry: the first task's worker sits at the `except`
boundary, the second is untouched. -/
def mC3 : MState :=
  { entries := [("t1", sAtCatch.tcb), ("t2", { task := initTask "b.pdf" })]
    clock := 77 }
/-- Registry holding one live (`Processing`) task for `a.pdf`. -/
def regLive : Registry := [("t1", { initTask "a.pdf" with status := .processing })]
/-- State with the worker blocked at the pause gate (pause arrived while the
worker was between `detect2` and the wait). -/
def traceAtGate : List Ev := [.startTask, w0, w0, w0, .pauseSel]

/-- State with the worker still at its initial cancel checkpoint after the
task was cancelled. -/
def traceCancelAtStart : List Ev := [.startTask, .cancelSel]

/-- State with the worker at the `cancel2` checkpoint of a cancelled task. -/
def traceAtCancel2Cancelled : List Ev := traceAtCancel2Paused ++ [.cancelSel]
/-- The paste layout produced by an uninterrupted merge loop: each page is
pasted horizontally centred and at the running `y` offset. -/
def layout (mw : Nat) : Nat → List Img → List Paste
  | _, [] => []
  | y, img :: rest =>
      { x := (mw - img.w) / 2, y := y, img := img } :: layout mw (y + img.h) rest
/-- The two-page example used by the C10 witness. -/
def imgs10 : List Img := [⟨100, 50⟩, ⟨80, 40⟩]

/-! ## Helper lemmas -/

/-- Every status write performed by a worker block produces `Completed`,
`Failed` or `Cancelled`; no worker block writes any other status. -/
theorem workerMicro_status_cases (env : Env) (c : Nat) (t : TaskState) (pc : WPc) :
    (workerMicro env c t pc).1.status = t.status ∨
    (workerMicro env c t pc).1.status = .completed ∨
    (workerMicro env c t pc).1.status = .failed ∨
    (workerMicro env c t pc).1.status = .cancelled := by
  cases pc <;>
    simp only [workerMicro, updateProgress] <;>
    (repeat' split) <;> simp

/-- Worker blocks either leave the error log unchanged or set `Failed` in the
same block (the `except` handler). -/
theorem workerMicro_errorLog_cases (env : Env) (c : Nat) (t : TaskState) (pc : WPc) :
    (workerMicro env c t pc).1.errorLog = t.errorLog ∨
    (workerMicro env c t pc).1.status = .failed := by
  cases pc <;>
    simp only [workerMicro, updateProgress] <;>
    (repeat' split) <;> simp

/-- Appending on the right preserves a positive length. -/
theorem length_pos_append (a b : String) (h : a.length ≠ 0) :
    (a ++ b).length ≠ 0 := by
  rw [String.length_append]
  omega

/-- A string of positive length is non-empty. -/
theorem ne_empty_of_length (a : String) (h : a.length ≠ 0) : a ≠ "" := by
  intro he
  rw [he] at h
  exact h rfl

/-- Every message with which a worker block enters the `except` handler is
one of `raiseMsgs`. -/
theorem workerMicro_catch_msgs (env : Env) (c : Nat) (t : TaskState) (pc : WPc)
    (msg : String) (h : (workerMicro env c t pc).2 = .catchE msg) :
    msg ∈ raiseMsgs env t := by
  cases pc <;> revert h <;>
    simp only [workerMicro, updateProgress] <;>
    (repeat' split) <;>
    intro h <;> simp_all [raiseMsgs]

/-- Provided the externally-texted exceptions (the one escaping
`convert_to_pdf` and the one raised by the PIL save — the only exceptions
whose text the worker does not choose itself) have non-empty messages, every
caught message is non-empty. -/
theorem raiseMsgs_ne_empty (env : Env) (t : TaskState)
    (hs : ∀ x, env.saveErr = some x → x ≠ "")
    (hc2 : ∀ x, env.convRaise = some x → x ≠ "") :
    ∀ msg ∈ raiseMsgs env t, msg ≠ "" := by
  intro msg hm hemp
  subst hemp
  rcases hcp : env.convPdf with _ | p <;> rcases hcr : env.convRaise with _ | cm <;>
    rcases hse : env.saveErr with _ | m <;>
    simp only [raiseMsgs, hcp, hcr, hse, List.append_nil, List.nil_append,
      List.mem_append, List.mem_cons, List.mem_singleton, List.not_mem_nil,
      or_false] at hm
  all_goals
    (repeat' (rcases hm with hm | hm)) <;>
    first
      | exact absurd hm (by decide)
      | (refine absurd hm.symm (ne_empty_of_length _ ?_)
         repeat' apply length_pos_append
         decide)
      | exact hs _ hse rfl
      | exact hc2 _ hcr rfl

/-- Updating the entry keyed `tid` leaves `find?` for any other key
unchanged. -/
theorem find_map_ne (l : List (String × TCB)) (tid j : String) (f : TCB → TCB)
    (hj : j ≠ tid) :
    (l.map (fun p => if p.1 = tid then (p.1, f p.2) else p)).find?
        (fun p => p.1 == j) =
      l.find? (fun p => p.1 == j) := by
  induction l with
  | nil => rfl
  | cons a l ih =>
      obtain ⟨a1, a2⟩ := a
      by_cases ha : a1 = tid
      · subst ha
        have hne : (a1 == j) = false := by
          simp only [beq_eq_false_iff_ne, ne_eq]
          exact fun hh => hj hh.symm
        simp [List.find?, hne, ih]
      · by_cases haj : (a1 == j) = true
        · simp [List.find?, ha, haj]
        · simp only [Bool.not_eq_true] at haj
          simp [List.find?, ha, haj, ih]

/-- The stepped task's control block is the step of the looked-up one. -/
theorem lookup_stepM_self (env : Env) (tid : String) (ev : Ev) (m : MState) :
    lookupTCB (stepM env tid ev m) tid =
      (lookupTCB m tid).map (stepTCB env m.clock ev) := by
  simp only [lookupTCB, stepM]
  induction m.entries with
  | nil => rfl
  | cons a l ih =>
      obtain ⟨a1, a2⟩ := a
      by_cases ha : a1 = tid
      · subst ha
        simp only [List.map_cons, if_pos rfl]
        rw [List.find?_cons_of_pos _ (by simp), List.find?_cons_of_pos _ (by simp)]
        simp
      · have hne : (a1 == tid) = false := by simp [ha]
        simp only [List.map_cons, if_neg ha]
        rw [List.find?_cons_of_neg _ (by simp [ha]), List.find?_cons_of_neg _ (by simp [ha])]
        exact ih

/-- Events addressed at one task leave every other task untouched. -/
theorem lookup_stepM_ne (env : Env) (tid j : String) (ev : Ev) (m : MState)
    (hj : j ≠ tid) : lookupTCB (stepM env tid ev m) j = lookupTCB m j := by
  simp only [lookupTCB, stepM]
  rw [find_map_ne m.entries tid j _ hj]

/-- Setting the element just read back into a list is observable at the same
index. -/
theorem get?_set_self {α : Type} (l : List α) (i : Nat) (a b : α)
    (h : l.get? i = some b) : (l.set i a).get? i = some a := by
  induction l generalizing i with
  | nil => simp at h
  | cons x xs ih =>
      cases i with
      | zero => rfl
      | succ n => simpa using ih n (by simpa using h)

/-! ## Claim theorems -/

/-- C1 (amended): controller operations (start/resume, pause, cancel, and the
reset half of retry) change a task's status only along the spec's §4.2 edges;
the worker's status writes always produce `Completed`, `Failed` or
`Cancelled`, but they are unguarded, so the pre-state of a worker-performed
change may be any status (e.g. `Paused` → `Completed` when a pause arrives
mid-step, see the counterexample). -/
theorem c1_amended (env : Env) (ev : Ev) (s : SysState)
    (h : (step env ev s).status ≠ s.status) :
    (isWorkerEv ev = false ∧ specEdge s.status (step env ev s).status = true) ∨
    (isWorkerEv ev = true ∧
      ((step env ev s).status = .completed ∨ (step env ev s).status = .failed ∨
        (step env ev s).status = .cancelled)) := by
  cases ev with
  | startTask =>
      left
      refine ⟨rfl, ?_⟩
      revert h
      simp only [step, stepTCB, SysState.status]
      split
      · next hg =>
          intro _
          rcases hg with hg | hg <;> simp [startTaskCore, hg, specEdge]
      · intro hc; exact absurd rfl hc
  | pauseSel =>
      left
      refine ⟨rfl, ?_⟩
      revert h
      simp only [step, stepTCB, SysState.status]
      split
      · next hg => intro _; simp [hg, specEdge]
      · intro hc; exact absurd rfl hc
  | cancelSel =>
      left
      refine ⟨rfl, ?_⟩
      revert h
      simp only [step, stepTCB, SysState.status]
      split
      · next hg => intro _; rcases hg with hg | hg <;> simp [hg, specEdge]
      · intro hc; exact absurd rfl hc
  | retryResetEv =>
      left
      refine ⟨rfl, ?_⟩
      revert h
      simp only [step, stepTCB, SysState.status]
      split
      · next hg => intro _; simp [hg, retryReset, specEdge]
      · intro hc; exact absurd rfl hc
  | workerStep i =>
      right
      refine ⟨rfl, ?_⟩
      revert h
      simp only [step, stepTCB, SysState.status]
      cases hgb : s.tcb.workers.get? i with
      | none => intro hc; exact absurd rfl hc
      | some pc =>
          simp only [hgb]
          intro hne
          rcases workerMicro_status_cases env s.clock s.tcb.task pc with hq | hq | hq | hq
          · exact absurd hq hne
          · exact Or.inl hq
          · exact Or.inr (Or.inl hq)
          · exact Or.inr (Or.inr hq)

/-- C1, witness: pausing a freshly started (`Processing`) task is a
controller transition along a spec edge. -/
theorem c1_amended_witness :
    (isWorkerEv .pauseSel = false ∧
      specEdge (run env0 sys0 [Ev.startTask]).status
        (step env0 .pauseSel (run env0 sys0 [Ev.startTask])).status = true) ∨
    (isWorkerEv .pauseSel = true ∧
      ((step env0 .pauseSel (run env0 sys0 [Ev.startTask])).status = .completed ∨
        (step env0 .pauseSel (run env0 sys0 [Ev.startTask])).status = .failed ∨
        (step env0 .pauseSel (run env0 sys0 [Ev.startTask])).status = .cancelled)) :=
  c1_amended env0 .pauseSel (run env0 sys0 [Ev.startTask]) (by decide)

/-- C1, counterexample: pausing while the worker is inside the rendering step
produces the status walk Pending, Processing…, Paused…, Completed — the final
change Paused→Completed is not an edge of the spec's state graph, so not
every status change follows an edge. -/
theorem c1_walk_cex :
    validWalk (statuses env0 sys0 tracePauseLost) = false := by decide

/-- C2 (amended): cancelling a `Paused` task immediately sets `Cancelled`
(also releasing the pause gate), and from `Cancelled` no single operation can
ever make the status `Processing` again; however, a still-running worker may
later overwrite `Cancelled` with `Failed` (cancel observed inside the merge
loop is converted into a merge failure) or `Completed` (worker already past
its last checkpoint) — see the counterexample. -/
theorem c2_amended (env : Env) (ev : Ev) (s : SysState) :
    (s.status = .paused → (step env .cancelSel s).status = .cancelled) ∧
    (s.status = .cancelled → (step env ev s).status ≠ .processing) := by
  constructor
  · intro hp
    simp only [SysState.status] at hp
    simp [step, stepTCB, SysState.status, hp]
  · intro hc
    simp only [SysState.status] at hc
    cases ev with
    | startTask => simp [step, stepTCB, SysState.status, hc]
    | pauseSel => simp [step, stepTCB, SysState.status, hc]
    | cancelSel => simp [step, stepTCB, SysState.status, hc]
    | retryResetEv => simp [step, stepTCB, SysState.status, hc]
    | workerStep i =>
        simp only [step, stepTCB, SysState.status]
        cases hgb : s.tcb.workers.get? i with
        | none => simp [hc]
        | some pc =>
            simp only [hgb]
            rcases workerMicro_status_cases env s.clock s.tcb.task pc with hq | hq | hq | hq <;>
              simp [hq, hc]

/-- C2, witness: on the concrete paused-in-merge state, cancel yields
`Cancelled`, and from a concrete `Cancelled` state the next worker step is
not `Processing`. -/
theorem c2_amended_witness :
    (step env0 .cancelSel (run env0 sys0 tracePausedMid)).status = .cancelled ∧
    (step env0 w0 (run env0 sys0 traceCancelToFailedMid)).status ≠ .processing :=
  ⟨(c2_amended env0 w0 (run env0 sys0 tracePausedMid)).1 (by decide),
   (c2_amended env0 w0 (run env0 sys0 traceCancelToFailedMid)).2 (by decide)⟩

/-- C2, counterexample: a task paused inside the merge loop and then
cancelled is observed `Cancelled`, but the still-running worker observes the
cancel inside `merge_images_fast`, treats the `None` result as a merge
failure, and overwrites the status with `Failed` — the status does not remain
`Cancelled`. -/
theorem c2_cancel_overwritten_cex :
    (run env0 sys0 tracePausedMid).status = .paused ∧
    (run env0 sys0 traceCancelToFailedMid).status = .cancelled ∧
    (run env0 sys0 traceCancelToFailed).status = .failed := by decide

/-- C3 (confirmed): any exception raised in a pipeline step surfaces at the
worker's `except Exception` boundary as a `catchE` continuation, and every
message carried there is one of the worker's own raise messages (or the
external save exception's text); executing the boundary block sets `Failed`,
stores the message as the error summary, records the end time, captures a
diagnostic log via `create_error_log`, and leaves every other task's control
block unchanged.  Provided the external save exception has a non-empty
message — and likewise the exception escaping the unwrapped
`convert_to_pdf` call (the worker's own messages are non-empty literals) —
the summary is non-empty.  `stepM` is a total function, so no exception ever
escapes to the controller operations of other tasks or of the scheduler. -/
theorem c3_worker_boundary (env : Env) (m : MState) (tid : String) (b : TCB)
    (i : Nat) (msg : String)
    (hb : lookupTCB m tid = some b)
    (hw : b.workers.get? i = some (.catchE msg))
    (hs : ∀ x, env.saveErr = some x → x ≠ "")
    (hc2 : ∀ x, env.convRaise = some x → x ≠ "") :
    (∃ b', lookupTCB (stepM env tid (.workerStep i) m) tid = some b' ∧
      b'.task.status = .failed ∧
      b'.task.errorMessage = msg ∧
      b'.task.endTime = some m.clock ∧
      b'.task.errorLog = some (createErrorLog b.task.filePath b.task.fileName msg
        (match b.task.currentStep with
         | some st => st.value
         | none => "Unknown")
        (match b.task.startTime with
         | some st => some (m.clock - st)
         | none => none))) ∧
    (∀ j, j ≠ tid → lookupTCB (stepM env tid (.workerStep i) m) j = lookupTCB m j) ∧
    (∀ (c : Nat) (t : TaskState) (pc : WPc) (msg' : String),
      (workerMicro env c t pc).2 = .catchE msg' →
        msg' ∈ raiseMsgs env t ∧ msg' ≠ "") := by
  refine ⟨?_, fun j hj => lookup_stepM_ne env tid j _ m hj,
    fun c t pc msg' hpc =>
      ⟨workerMicro_catch_msgs env c t pc msg' hpc,
       raiseMsgs_ne_empty env t hs hc2 msg'
         (workerMicro_catch_msgs env c t pc msg' hpc)⟩⟩
  refine ⟨stepTCB env m.clock (.workerStep i) b, ?_, ?_, ?_, ?_, ?_⟩
  · rw [lookup_stepM_self, hb]
    rfl
  all_goals
    (simp only [List.get?_eq_getElem?] at hw
     simp [stepTCB, hw, workerMicro, createErrorLog])

/-- C3, witness: concrete two-task registry in which the first task's worker
executes the boundary block — the first task fails with the merge-failure
message and a captured log, the second task is unchanged. -/
theorem c3_worker_boundary_witness :
    ∃ b', lookupTCB (stepM env0 "t1" (.workerStep 0) mC3) "t1" = some b' ∧
      b'.task.status = .failed ∧
      b'.task.errorMessage = "图像合并失败" ∧
      b'.task.endTime = some mC3.clock ∧
      b'.task.errorLog = some (createErrorLog sAtCatch.tcb.task.filePath
        sAtCatch.tcb.task.fileName "图像合并失败"
        (match sAtCatch.tcb.task.currentStep with
         | some st => st.value
         | none => "Unknown")
        (match sAtCatch.tcb.task.startTime with
         | some st => some (mC3.clock - st)
         | none => none)) :=
  (c3_worker_boundary env0 mC3 "t1" sAtCatch.tcb 0 "图像合并失败"
    (by decide) (by decide) (fun x hx => nomatch hx) (fun x hx => nomatch hx)).1

/-- C5 (confirmed): the reset half of `retry_selected` fires only from
`Failed` (otherwise the handler is a no-op); on success it returns the task
to `Pending` with progress 0 and cleared error summary, step and timestamps,
while `error_log` is retained; and the only event that ever modifies a task's
`error_log` is the worker's failure block, which simultaneously sets
`Failed` — so the old diagnostic reference survives a retry until a later
failure overwrites it.  (`retry_selected` then immediately calls
`start_task`, so the `Pending` state is transient.) -/
theorem c5_retry (env : Env) (clock : Nat) (b : TCB) (ev : Ev) (s : SysState) :
    (b.task.status ≠ .failed → stepTCB env clock .retryResetEv b = b) ∧
    (b.task.status = .failed →
      stepTCB env clock .retryResetEv b = { b with task := retryReset b.task } ∧
      (retryReset b.task).status = .pending ∧
      (retryReset b.task).progress = 0 ∧
      (retryReset b.task).errorMessage = "" ∧
      (retryReset b.task).currentStep = none ∧
      (retryReset b.task).startTime = none ∧
      (retryReset b.task).endTime = none ∧
      (retryReset b.task).errorLog = b.task.errorLog) ∧
    ((step env ev s).tcb.task.errorLog ≠ s.tcb.task.errorLog →
      (step env ev s).status = .failed) := by
  refine ⟨fun hn => by simp [stepTCB, hn], fun hf => ?_, ?_⟩
  · exact ⟨by simp [stepTCB, hf], rfl, rfl, rfl, rfl, rfl, rfl, rfl⟩
  · intro hlog
    cases ev with
    | startTask =>
        exfalso
        apply hlog
        simp only [step, stepTCB]
        split <;> simp [startTaskCore]
    | pauseSel =>
        exfalso
        apply hlog
        simp only [step, stepTCB]
        split <;> simp
    | cancelSel =>
        exfalso
        apply hlog
        simp only [step, stepTCB]
        split <;> simp
    | retryResetEv =>
        exfalso
        apply hlog
        simp only [step, stepTCB]
        split <;> simp [retryReset]
    | workerStep i =>
        simp only [step, stepTCB, SysState.status] at hlog ⊢
        cases hgb : s.tcb.workers.get? i with
        | none => simp only [hgb] at hlog; exact absurd rfl hlog
        | some pc =>
            simp only [hgb] at hlog ⊢
            rcases workerMicro_errorLog_cases env s.clock s.tcb.task pc with hq | hq
            · exact absurd hq hlog
            · exact hq

/-- C5, witness: retrying the concrete failed task resets it to `Pending`
with cleared fields but keeps its error log; and on the concrete state at the
`except` boundary, the log-modifying step indeed ends `Failed`. -/
theorem c5_retry_witness :
    (stepTCB env0 0 .retryResetEv bFailed =
        { bFailed with task := retryReset bFailed.task } ∧
      (retryReset bFailed.task).status = .pending ∧
      (retryReset bFailed.task).progress = 0 ∧
      (retryReset bFailed.task).errorMessage = "" ∧
      (retryReset bFailed.task).currentStep = none ∧
      (retryReset bFailed.task).startTime = none ∧
      (retryReset bFailed.task).endTime = none ∧
      (retryReset bFailed.task).errorLog = bFailed.task.errorLog) ∧
    (step env0 w0 sAtCatch).status = .failed :=
  ⟨(c5_retry env0 0 bFailed w0 sAtCatch).2.1 (by decide),
   (c5_retry env0 0 bFailed w0 sAtCatch).2.2 (by decide)⟩

/-- C4, counterexample: with a single already-`Completed` task for `a.pdf` in
the registry (so no un-terminated task references that path), submitting
`a.pdf` again is a no-op — no fresh `Pending` task is created, contradicting
the claim's second half. -/
theorem c4_terminated_dedup_cex :
    addFile regCompleted "a.pdf" "t2" = regCompleted ∧
    regCompleted.all (fun p => terminalB p.2.status) = true := by decide

/-- C4 (amended): the duplicate check of `add_files` ignores task status — a
second submission of the same `sourceRef` is skipped whenever **any** existing
task, terminal or not, references it; a fresh `Pending` task under the fresh
id is appended only when no task at all references the path.  (The claim's
first half holds: double submission while the first task is live yields one
entry, since a live task is in particular present.) -/
theorem c4_amended (reg : Registry) (path newId : String) :
    ((∃ p ∈ reg, p.2.filePath = path) → addFile reg path newId = reg) ∧
    ((∀ p ∈ reg, p.2.filePath ≠ path) →
      addFile reg path newId = reg ++ [(newId, initTask path)]) := by
  constructor
  · intro hex
    have hany : reg.any (fun p => p.2.filePath == path) = true := by
      rcases hex with ⟨p, hp, he⟩
      exact List.any_eq_true.mpr ⟨p, hp, by simpa using he⟩
    simp [addFile, hany]
  · intro hall
    have hany : reg.any (fun p => p.2.filePath == path) = false := by
      rw [List.any_eq_false]
      intro p hp
      simpa using hall p hp
    simp [addFile, hany]

/-- C4, witness: submitting `a.pdf` again while its task is live leaves the
registry unchanged, and submitting a path nobody references appends a fresh
`Pending` task. -/
theorem c4_amended_witness :
    addFile regLive "a.pdf" "t9" = regLive ∧
    addFile regLive "b.pdf" "t9" = regLive ++ [("t9", initTask "b.pdf")] :=
  ⟨(c4_amended regLive "a.pdf" "t9").1 (by decide),
   (c4_amended regLive "b.pdf" "t9").2 (by decide)⟩

/-- Worker blocks that (re-)establish `Completed` do so only at the
completion write, which verifies that `output_path` is non-empty. -/
theorem workerMicro_completed_out (env : Env) (c : Nat) (t : TaskState) (pc : WPc)
    (h2 : (workerMicro env c t pc).1.status = .completed) :
    t.status = .completed ∨ (workerMicro env c t pc).1.outputPath ≠ none := by
  revert h2
  cases pc <;>
    simp only [workerMicro, updateProgress] <;>
    (repeat' split) <;>
    intro h2 <;>
    simp_all

/-- C6 (amended): whenever a step establishes `status = Completed`, the
output path is non-empty at that moment (the completion write re-checks it);
but the converse direction of the claim fails — `output_path` is stored one
step before the completion write, while the status is still `Processing`
(see the counterexample), so non-empty `outputRef` does not imply
`Completed`. -/
theorem c6_amended (env : Env) (ev : Ev) (s : SysState)
    (h : (step env ev s).status = .completed) :
    s.status = .completed ∨ (step env ev s).outPath ≠ none := by
  cases ev with
  | startTask =>
      left
      revert h
      simp only [step, stepTCB, SysState.status]
      split
      · simp [startTaskCore]
      · exact fun h => h
  | pauseSel =>
      left
      revert h
      simp only [step, stepTCB, SysState.status]
      split
      · simp
      · exact fun h => h
  | cancelSel =>
      left
      revert h
      simp only [step, stepTCB, SysState.status]
      split
      · simp
      · exact fun h => h
  | retryResetEv =>
      left
      revert h
      simp only [step, stepTCB, SysState.status]
      split
      · simp [retryReset]
      · exact fun h => h
  | workerStep i =>
      revert h
      simp only [step, stepTCB, SysState.status, SysState.outPath]
      cases hgb : s.tcb.workers.get? i with
      | none => exact fun h => Or.inl h
      | some pc =>
          simp only [hgb]
          exact fun h => workerMicro_completed_out env s.clock s.tcb.task pc h

/-- C6, witness: the completion write on the concrete post-save state yields
`Completed` with a non-empty output path. -/
theorem c6_amended_witness :
    (run env0 sys0 traceSaveWindow).status = .completed ∨
      (step env0 w0 (run env0 sys0 traceSaveWindow)).outPath ≠ none :=
  c6_amended env0 w0 (run env0 sys0 traceSaveWindow) (by decide)

/-- C6, counterexample: immediately after the save step the output path is
already stored while the status is still `Processing`, so a non-empty
`outputRef` does not imply `status == Completed`. -/
theorem c6_window_cex :
    (run env0 sys0 traceSaveWindow).status = .processing ∧
    (run env0 sys0 traceSaveWindow).outPath = some "output/a.png" := by decide

/-- C7 (amended): the worker observes its control signals only at the
checkpoints that actually exist in `convert_file_worker`: the cancel flag at
the pipeline start (`start`), after rendering (`cancel2`) and between
individual pastes inside the merge loop (a mid-step observation); the pause
gate at the single `pause_event.wait()` after the existence check — a worker
sitting there with the gate closed makes no progress, and `Cancel` releases
the gate (it sets the pause event) so the wait is cancellable.  There is no
pause wait or cancel check before the merge and save steps (counterexample),
and no `LoadDocument` checkpoint exists at all. -/
theorem c7_amended (env : Env) (s : SysState) (i k : Nat) :
    (s.tcb.workers.get? i = some .pauseWait → s.tcb.task.pauseEvent = false →
      (step env (.workerStep i) s).tcb.task = s.tcb.task ∧
      (step env (.workerStep i) s).tcb.workers.get? i = some .pauseWait) ∧
    (s.status = .processing ∨ s.status = .paused →
      (step env .cancelSel s).tcb.task.pauseEvent = true ∧
      (step env .cancelSel s).tcb.task.cancelEvent = true ∧
      (step env .cancelSel s).status = .cancelled) ∧
    (s.tcb.workers.get? i = some .start → s.tcb.task.cancelEvent = true →
      (step env (.workerStep i) s).status = .cancelled ∧
      (step env (.workerStep i) s).tcb.workers.get? i = some .done) ∧
    (s.tcb.workers.get? i = some .cancel2 → s.tcb.task.cancelEvent = true →
      (step env (.workerStep i) s).status = .cancelled ∧
      (step env (.workerStep i) s).tcb.workers.get? i = some .done) ∧
    (s.tcb.workers.get? i = some .cancel2 → s.tcb.task.cancelEvent = false →
      (step env (.workerStep i) s).tcb.workers.get? i = some .mergeMark) ∧
    (s.tcb.workers.get? i = some (.mergeLoop k) → k < env.images.length →
      s.tcb.task.cancelEvent = true →
      (step env (.workerStep i) s).tcb.workers.get? i =
        some (.catchE "图像合并失败")) := by
  refine ⟨?_, ?_, ?_, ?_, ?_, ?_⟩
  · intro hw hp
    simp only [step, stepTCB, hw, workerMicro, hp]
    exact ⟨rfl, get?_set_self _ _ _ _ hw⟩
  · intro hst
    rcases hst with h | h <;>
      simp only [SysState.status] at h <;>
      simp [step, stepTCB, SysState.status, h]
  · intro hw hc
    simp only [step, stepTCB, hw, workerMicro, hc, SysState.status]
    exact ⟨rfl, get?_set_self _ _ _ _ hw⟩
  · intro hw hc
    simp only [step, stepTCB, hw, workerMicro, hc, SysState.status]
    exact ⟨rfl, get?_set_self _ _ _ _ hw⟩
  · intro hw hc
    simp only [step, stepTCB, hw, workerMicro, hc]
    exact get?_set_self _ _ _ _ hw
  · intro hw hk hc
    simp only [step, stepTCB, hw, workerMicro, hk, hc, if_true, ite_true]
    exact get?_set_self _ _ _ _ hw

/-- C7, witness: on concrete states, the blocked wait, the cancel-releases-
the-gate behaviour, both cancel checkpoints, the no-wait entry into the merge
step and the mid-merge cancel observation all behave as stated. -/
theorem c7_amended_witness :
    ((step env0 w0 (run env0 sys0 traceAtGate)).tcb.task =
        (run env0 sys0 traceAtGate).tcb.task ∧
      (step env0 w0 (run env0 sys0 traceAtGate)).tcb.workers.get? 0 =
        some .pauseWait) ∧
    ((step env0 .cancelSel (run env0 sys0 traceAtGate)).tcb.task.pauseEvent = true ∧
      (step env0 .cancelSel (run env0 sys0 traceAtGate)).tcb.task.cancelEvent = true ∧
      (step env0 .cancelSel (run env0 sys0 traceAtGate)).status = .cancelled) ∧
    ((step env0 w0 (run env0 sys0 traceCancelAtStart)).status = .cancelled ∧
      (step env0 w0 (run env0 sys0 traceCancelAtStart)).tcb.workers.get? 0 =
        some .done) ∧
    ((step env0 w0 (run env0 sys0 traceAtCancel2Cancelled)).status = .cancelled ∧
      (step env0 w0 (run env0 sys0 traceAtCancel2Cancelled)).tcb.workers.get? 0 =
        some .done) ∧
    (step env0 w0 (run env0 sys0 traceAtCancel2Paused)).tcb.workers.get? 0 =
      some .mergeMark ∧
    (step env0 w0 (run env0 sys0 traceCancelToFailedMid)).tcb.workers.get? 0 =
      some (.catchE "图像合并失败") :=
  ⟨(c7_amended env0 (run env0 sys0 traceAtGate) 0 0).1 (by decide) (by decide),
   (c7_amended env0 (run env0 sys0 traceAtGate) 0 0).2.1 (by decide),
   (c7_amended env0 (run env0 sys0 traceCancelAtStart) 0 0).2.2.1 (by decide) (by decide),
   (c7_amended env0 (run env0 sys0 traceAtCancel2Cancelled) 0 0).2.2.2.1 (by decide)
     (by decide),
   (c7_amended env0 (run env0 sys0 traceAtCancel2Paused) 0 0).2.2.2.2.1 (by decide)
     (by decide),
   (c7_amended env0 (run env0 sys0 traceCancelToFailedMid) 0 0).2.2.2.2.2 (by decide)
     (by decide) (by decide)⟩

/-- C7, counterexample: with the pause gate closed (pause arrived during
rendering) and no cancel pending, the worker at the `cancel2` checkpoint
proceeds straight into the `MergingImages` step instead of waiting on the
pause gate — there is no pause wait before each pipeline step. -/
theorem c7_no_wait_cex :
    (run env0 sys0 traceAtCancel2Paused).tcb.workers = [.cancel2] ∧
    (run env0 sys0 traceAtCancel2Paused).tcb.task.pauseEvent = false ∧
    (run env0 sys0 traceAtCancel2Paused).status = .paused ∧
    (step env0 w0 (run env0 sys0 traceAtCancel2Paused)).tcb.workers = [.mergeMark] := by
  decide

/-- The merge-loop progress value is non-negative. -/
theorem merge_q_nonneg (i n : Nat) :
    (0 : ℚ) ≤ 70 + ((i : ℚ) + 1) / (n : ℚ) * 20 := by positivity

/-- The merge-loop progress value stays at most 100 while `i < n`. -/
theorem merge_q_le (i n : Nat) (h : i < n) :
    70 + ((i : ℚ) + 1) / (n : ℚ) * 20 ≤ 100 := by
  have hn : (0 : ℚ) < (n : ℚ) := by
    have hp : 0 < n := by omega
    exact_mod_cast hp
  have hle : ((i : ℚ) + 1) ≤ (n : ℚ) := by
    have hp : i + 1 ≤ n := h
    exact_mod_cast hp
  have hq : ((i : ℚ) + 1) / (n : ℚ) ≤ 1 := (div_le_one hn).mpr hle
  linarith

/-- Every worker block writes a progress value in `[0, 100]` or keeps the
current one. -/
theorem workerMicro_progress_bounds (env : Env) (c : Nat) (t : TaskState) (pc : WPc)
    (h0 : 0 ≤ t.progress) (h1 : t.progress ≤ 100) :
    0 ≤ (workerMicro env c t pc).1.progress ∧
      (workerMicro env c t pc).1.progress ≤ 100 := by
  cases pc <;>
    simp only [workerMicro, updateProgress] <;>
    (repeat' split) <;>
    exact ⟨by first | assumption | (norm_num; done) | exact merge_q_nonneg _ _,
           by first | assumption | (norm_num; done) | (apply merge_q_le; assumption)⟩

/-- Every event keeps progress in `[0, 100]`. -/
theorem stepTCB_progress_bounds (env : Env) (clock : Nat) (ev : Ev) (b : TCB)
    (h0 : 0 ≤ b.task.progress) (h1 : b.task.progress ≤ 100) :
    0 ≤ (stepTCB env clock ev b).task.progress ∧
      (stepTCB env clock ev b).task.progress ≤ 100 := by
  cases ev with
  | startTask =>
      simp only [stepTCB]
      split <;> exact ⟨h0, h1⟩
  | pauseSel =>
      simp only [stepTCB]
      split <;> exact ⟨h0, h1⟩
  | cancelSel =>
      simp only [stepTCB]
      split <;> exact ⟨h0, h1⟩
  | retryResetEv =>
      simp only [stepTCB]
      split
      · exact ⟨le_refl 0, show (0 : ℚ) ≤ 100 by norm_num⟩
      · exact ⟨h0, h1⟩
  | workerStep i =>
      simp only [stepTCB]
      cases hgb : b.workers.get? i with
      | none => exact ⟨h0, h1⟩
      | some pc =>
          simp only [hgb]
          exact workerMicro_progress_bounds env clock b.task pc h0 h1

/-- Progress stays in `[0, 100]` along any run. -/
theorem run_progress_bounds (env : Env) (evs : List Ev) (s : SysState)
    (h0 : 0 ≤ s.progress) (h1 : s.progress ≤ 100) :
    0 ≤ (run env s evs).progress ∧ (run env s evs).progress ≤ 100 := by
  induction evs generalizing s with
  | nil => exact ⟨h0, h1⟩
  | cons e es ih =>
      have hb := stepTCB_progress_bounds env s.clock e s.tcb h0 h1
      exact ih (step env e s) hb.1 hb.2

/-- The merge-loop progress addend is non-negative. -/
theorem merge_addend_nonneg (i n : Nat) :
    (0 : ℚ) ≤ ((i : ℚ) + 1) / (n : ℚ) * 20 :=
  mul_nonneg (div_nonneg (by positivity) (Nat.cast_nonneg n)) (by norm_num)

/-- Worker blocks never lower progress to 0: they keep it or write at least
10. -/
theorem workerMicro_progress_cases (env : Env) (c : Nat) (t : TaskState) (pc : WPc) :
    (workerMicro env c t pc).1.progress = t.progress ∨
      10 ≤ (workerMicro env c t pc).1.progress := by
  cases pc <;>
    simp only [workerMicro, updateProgress] <;>
    (repeat' split) <;>
    first
      | (left; trivial)
      | (right; norm_num; done)
      | (right
         exact le_trans (by norm_num : (10 : ℚ) ≤ 70)
           (le_add_of_nonneg_right (merge_addend_nonneg _ _)))

/-- The first observation of a trace is the current value. -/
theorem traceOf_head {α : Type} (f : SysState → α) (env : Env) (s : SysState)
    (evs : List Ev) : (traceOf f env s evs).head? = some (f s) := by
  cases evs <;> rfl

/-- Prepending a value below the head preserves monotonicity. -/
theorem progressMono_cons (a : ℚ) (l : List ℚ)
    (h1 : ∀ b, l.head? = some b → a ≤ b) (h2 : progressMono l) :
    progressMono (a :: l) := by
  cases l with
  | nil => trivial
  | cons b tl => exact ⟨h1 b rfl, h2⟩

/-- Each worker block never lowers the progress and preserves the
single-worker run invariant `wInv`. -/
theorem workerMicro_mono (env : Env) (c : Nat) (t : TaskState) (pc : WPc)
    (h : wInv env t.progress pc) :
    t.progress ≤ (workerMicro env c t pc).1.progress ∧
      wInv env (workerMicro env c t pc).1.progress (workerMicro env c t pc).2 := by
  cases pc with
  | start =>
      simp only [workerMicro]
      split
      · exact ⟨le_refl _, trivial⟩
      · exact ⟨le_refl _, h⟩
  | detect1 => exact ⟨h, le_refl 10⟩
  | detect2 =>
      simp only [workerMicro]
      split
      · exact ⟨le_refl _, h⟩
      · exact ⟨le_refl _, trivial⟩
  | pauseWait =>
      simp only [workerMicro]
      split
      · exact ⟨le_refl _, h⟩
      · exact ⟨le_refl _, h⟩
  | branch =>
      simp only [workerMicro]
      split
      · exact ⟨le_refl _, le_trans h (by norm_num)⟩
      · split
        · split
          · exact ⟨le_refl _, le_trans h (by norm_num)⟩
          · exact ⟨le_refl _, trivial⟩
        · exact ⟨le_refl _, trivial⟩
  | pdfMark => exact ⟨h, le_refl 20⟩
  | pdfRun =>
      simp only [workerMicro]
      split
      · exact ⟨le_refl _, trivial⟩
      · exact ⟨le_refl _, le_trans h (by norm_num)⟩
  | officeMark => exact ⟨h, le_refl 20⟩
  | officeConvRun =>
      simp only [workerMicro]
      split
      · exact ⟨le_refl _, trivial⟩
      · split
        · exact ⟨le_refl _, trivial⟩
        · split
          · exact ⟨le_refl _, trivial⟩
          · split
            · exact ⟨le_refl _, trivial⟩
            · exact ⟨le_refl _, le_trans h (by norm_num)⟩
  | officeRenderMark => exact ⟨h, le_refl 50⟩
  | officeRun =>
      simp only [workerMicro]
      split
      · exact ⟨le_refl _, trivial⟩
      · exact ⟨le_refl _, le_trans h (by norm_num)⟩
  | cancel2 =>
      simp only [workerMicro]
      split
      · exact ⟨le_refl _, trivial⟩
      · exact ⟨le_refl _, h⟩
  | mergeMark =>
      refine ⟨h, ?_, ?_⟩
      · simp [workerMicro, updateProgress]
      · norm_num [workerMicro, updateProgress]
  | mergeLoop i =>
      simp only [workerMicro]
      split
      · next hk =>
          split
          · exact ⟨le_refl _, trivial⟩
          · have hn : (0 : ℚ) < (env.images.length : ℚ) := by
              have hp : 0 < env.images.length := by omega
              exact_mod_cast hp
            have hdiv : ((i : ℚ)) / (env.images.length : ℚ) ≤
                ((i : ℚ) + 1) / (env.images.length : ℚ) :=
              (div_le_div_iff_of_pos_right hn).mpr (by linarith)
            have hle2 : ((i : ℚ) + 1) ≤ (env.images.length : ℚ) := by
              exact_mod_cast hk
            have hq : ((i : ℚ) + 1) / (env.images.length : ℚ) ≤ 1 :=
              (div_le_one hn).mpr hle2
            refine ⟨?_, ?_, ?_⟩
            · show t.progress ≤
                70 + ((i : ℚ) + 1) / (env.images.length : ℚ) * 20
              have h1 := h.1
              linarith
            · show 70 + ((i : ℚ) + 1) / (env.images.length : ℚ) * 20 ≤
                70 + (((i + 1 : Nat)) : ℚ) / (env.images.length : ℚ) * 20
              push_cast
              linarith
            · show 70 + ((i : ℚ) + 1) / (env.images.length : ℚ) * 20 ≤ 95
              linarith
      · exact ⟨h.2, le_refl 95⟩
  | saveRun =>
      simp only [workerMicro]
      split
      · exact ⟨le_refl _, trivial⟩
      · exact ⟨le_refl _, le_trans h (by norm_num)⟩
  | completeWrite =>
      simp only [workerMicro]
      split
      · exact ⟨le_refl _, trivial⟩
      · exact ⟨h, trivial⟩
  | catchE msg => exact ⟨le_refl _, trivial⟩
  | done => exact ⟨le_refl _, trivial⟩

/-- Progress is non-decreasing along any number of steps of the sole worker
of a task satisfying the run invariant. -/
theorem solo_mono_aux (env : Env) :
    ∀ (n : Nat) (s : SysState) (pc : WPc),
      s.tcb.workers = [pc] → wInv env s.tcb.task.progress pc →
      progressMono (traceOf SysState.progress env s (List.replicate n w0)) := by
  intro n
  induction n with
  | zero =>
      intro s pc hw hinv
      trivial
  | succ m ih =>
      intro s pc hw hinv
      have hget : s.tcb.workers.get? 0 = some pc := by rw [hw]; rfl
      have hmono := workerMicro_mono env s.clock s.tcb.task pc hinv
      have htask : (step env w0 s).tcb.task =
          (workerMicro env s.clock s.tcb.task pc).1 := by
        simp only [step, w0, stepTCB, hget]
      have hworkers : (step env w0 s).tcb.workers =
          [(workerMicro env s.clock s.tcb.task pc).2] := by
        simp only [step, w0, stepTCB, hget]
        rw [hw]
        rfl
      rw [List.replicate_succ]
      show progressMono (SysState.progress s ::
        traceOf SysState.progress env (step env w0 s) (List.replicate m w0))
      refine progressMono_cons _ _ ?_ (ih (step env w0 s) _ hworkers ?_)
      · intro b hb
        rw [traceOf_head] at hb
        injection hb with hb
        subst hb
        show s.tcb.task.progress ≤ (step env w0 s).tcb.task.progress
        rw [htask]
        exact hmono.1
      · show wInv env (step env w0 s).tcb.task.progress
          ((workerMicro env s.clock s.tcb.task pc).2)
        rw [htask]
        exact hmono.2

/-- C8 (amended): `progressPercent` always lies in `[0, 100]` along every run
from a fresh task, and in every uninterrupted single-worker run (`Start` on a
fresh task followed by only that worker's steps, any environment) it is
non-decreasing; the only event that can take a non-zero progress back to 0 is
the reset half of `Retry`.  The claim's general monotonicity fails because
resuming a paused task submits a duplicate worker whose early writes lower
the progress (see the counterexample). -/
theorem c8_amended :
    (∀ (env : Env) (path : String) (evs : List Ev),
      0 ≤ (run env (initSys path) evs).progress ∧
        (run env (initSys path) evs).progress ≤ 100) ∧
    (∀ (env : Env) (path : String) (n : Nat),
      progressMono (traceOf SysState.progress env (initSys path)
        (.startTask :: List.replicate n w0))) ∧
    (∀ (env : Env) (ev : Ev) (s : SysState),
      (step env ev s).progress = 0 → s.progress ≠ 0 → ev = .retryResetEv) := by
  refine ⟨fun env path evs =>
    run_progress_bounds env evs (initSys path) (le_refl 0)
      (show (0 : ℚ) ≤ 100 by norm_num), ?_, ?_⟩
  · intro env path n
    show progressMono (SysState.progress (initSys path) ::
      traceOf SysState.progress env (step env .startTask (initSys path))
        (List.replicate n w0))
    have hworkers : (step env .startTask (initSys path)).tcb.workers = [.start] := rfl
    refine progressMono_cons _ _ ?_
      (solo_mono_aux env n (step env .startTask (initSys path)) .start hworkers ?_)
    · intro b hb
      rw [traceOf_head] at hb
      injection hb with hb
      subst hb
      show SysState.progress (initSys path) ≤
        SysState.progress (step env .startTask (initSys path))
      exact le_of_eq rfl
    · show (0 : ℚ) ≤ 10
      norm_num
  · intro env ev s hz hnz
    cases ev with
    | startTask =>
        exfalso
        apply hnz
        revert hz
        simp only [step, stepTCB, SysState.progress]
        split <;> exact fun hz => hz
    | pauseSel =>
        exfalso
        apply hnz
        revert hz
        simp only [step, stepTCB, SysState.progress]
        split <;> exact fun hz => hz
    | cancelSel =>
        exfalso
        apply hnz
        revert hz
        simp only [step, stepTCB, SysState.progress]
        split <;> exact fun hz => hz
    | retryResetEv => rfl
    | workerStep i =>
        exfalso
        apply hnz
        revert hz
        simp only [step, stepTCB, SysState.progress]
        cases hgb : s.tcb.workers.get? i with
        | none => exact fun hz => hz
        | some pc =>
            simp only [hgb]
            intro hz
            rcases workerMicro_progress_cases env s.clock s.tcb.task pc with hq | hq
            · rw [← hq]; exact hz
            · rw [hz] at hq; norm_num at hq

/-- C8, witness: the bounds and the single-worker monotonicity hold on the
concrete successful run, and the zero-reset conclusion holds for the
concrete retry of the failed task. -/
theorem c8_amended_witness :
    (0 ≤ (run env0 (initSys "a.pdf") traceSuccess).progress ∧
      (run env0 (initSys "a.pdf") traceSuccess).progress ≤ 100) ∧
    progressMono (traceOf SysState.progress env0 (initSys "a.pdf")
      (.startTask :: List.replicate 14 w0)) ∧
    Ev.retryResetEv = Ev.retryResetEv :=
  ⟨c8_amended.1 env0 "a.pdf" traceSuccess,
   c8_amended.2.1 env0 "a.pdf" 14,
   c8_amended.2.2 env0 .retryResetEv (run env0 sys0 traceCancelToFailed)
     (by decide) (by decide)⟩

/-- C8, counterexample: resuming a paused task submits a second worker for
the same task; its early `DETECTING` progress write lowers the progress from
20 to 10 between two consecutive `Processing` observations. -/
theorem c8_progress_drop_cex :
    (run env0 sys0 traceResumeDupMid).status = .processing ∧
    (run env0 sys0 traceResumeDupMid).progress = 20 ∧
    (step env0 (.workerStep 1) (run env0 sys0 traceResumeDupMid)).status = .processing ∧
    (step env0 (.workerStep 1) (run env0 sys0 traceResumeDupMid)).progress = 10 := by
  decide

/-- C9 (amended): `remove_selected` deletes the selected task exactly when
its status is not `Processing` — so `Paused` tasks are removable too, not
only terminal or `Pending` ones; a `Processing` task is never removed, and an
unknown id is a no-op. -/
theorem c9_amended (reg : Registry) (tid : String) (pr : String × TaskState) :
    (reg.find? (fun p => p.1 == tid) = none → removeTask reg tid = reg) ∧
    (reg.find? (fun p => p.1 == tid) = some pr →
      (pr.2.status = .processing → removeTask reg tid = reg) ∧
      (pr.2.status ≠ .processing →
        removeTask reg tid = reg.filter (fun p => p.1 != tid))) := by
  constructor
  · intro h
    simp [removeTask, h]
  · intro h
    constructor
    · intro hp
      simp [removeTask, h, hp]
    · intro hp
      simp [removeTask, h, hp]

/-- C9, witness: removing a concrete `Processing` task is rejected, and
removing a concrete `Pending` task deletes it. -/
theorem c9_amended_witness :
    removeTask regLive "t1" = regLive ∧
    removeTask [("t2", initTask "b.pdf")] "t2" =
      List.filter (fun p => p.1 != "t2") [("t2", initTask "b.pdf")] :=
  ⟨((c9_amended regLive "t1" ("t1", { initTask "a.pdf" with status := .processing })).2
      (by decide)).1 rfl,
   ((c9_amended [("t2", initTask "b.pdf")] "t2" ("t2", initTask "b.pdf")).2
      (by decide)).2 (by decide)⟩

/-- C9, counterexample: `remove_selected` deletes a `Paused` task — `Paused`
is neither terminal nor `Pending`, so removal is not restricted to
terminal-or-`Pending` tasks. -/
theorem c9_remove_paused_cex :
    removeTask regPaused "t1" = [] ∧
    (terminalB .paused || decide ((FileStatus.paused) = .pending)) = false := by decide

/-- Without a cancel, the merge loop produces exactly the `layout` pastes. -/
theorem mergeGo_eq_layout (cancelAt : Nat → Bool) (hc : ∀ i, cancelAt i = false)
    (mw : Nat) (l : List Img) : ∀ (i y : Nat),
    mergeGo cancelAt mw i y l = some (layout mw y l) := by
  induction l with
  | nil => intro i y; rfl
  | cons img rest ih =>
      intro i y
      simp [mergeGo, hc i, layout, ih (i + 1) (y + img.h)]

/-- The layout pastes one record per page. -/
theorem layout_length (mw : Nat) (l : List Img) :
    ∀ y, (layout mw y l).length = l.length := by
  induction l with
  | nil => intro y; rfl
  | cons img rest ih => intro y; simp [layout, ih]

/-- The `k`-th paste of the layout: page `k`, centred, below the first `k`
pages. -/
theorem layout_get? (mw : Nat) (l : List Img) : ∀ (k y : Nat) (img : Img),
    l.get? k = some img →
    (layout mw y l).get? k =
      some { x := (mw - img.w) / 2, y := y + ((l.take k).map Img.h).sum,
             img := img } := by
  induction l with
  | nil => intro k y img h; simp at h
  | cons a rest ih =>
      intro k y img h
      cases k with
      | zero =>
          simp only [List.get?] at h
          injection h with h
          subst h
          simp [layout]
      | succ n =>
          have hrest : rest.get? n = some img := by simpa using h
          have hn := ih n (y + a.h) img hrest
          simp only [layout, List.get?]
          rw [hn]
          have harith : y + a.h + ((rest.take n).map Img.h).sum =
              y + (((a :: rest).take (n + 1)).map Img.h).sum := by
            simp only [List.take_succ_cons, List.map_cons, List.sum_cons]
            omega
          rw [harith]

/-- The seed of `foldl max` never exceeds the result. -/
theorem le_foldl_max (l : List Nat) : ∀ a, a ≤ l.foldl Nat.max a := by
  induction l with
  | nil => intro a; exact Nat.le_refl a
  | cons b rest ih =>
      intro a
      rw [List.foldl_cons]
      exact Nat.le_trans (Nat.le_max_left a b) (ih (Nat.max a b))

/-- Every member is bounded by `foldl max`. -/
theorem mem_le_foldl_max (l : List Nat) : ∀ (a x : Nat), x ∈ l → x ≤ l.foldl Nat.max a := by
  induction l with
  | nil => intro a x hx; cases hx
  | cons b rest ih =>
      intro a x hx
      rw [List.foldl_cons]
      rcases List.mem_cons.mp hx with h | h
      · subst h
        exact Nat.le_trans (Nat.le_max_right a x) (le_foldl_max rest (Nat.max a x))
      · exact ih (Nat.max a b) x h

/-- `foldl max` returns its seed or a member. -/
theorem foldl_max_eq_or_mem (l : List Nat) :
    ∀ a, l.foldl Nat.max a = a ∨ l.foldl Nat.max a ∈ l := by
  induction l with
  | nil => intro a; exact Or.inl rfl
  | cons b rest ih =>
      intro a
      rw [List.foldl_cons]
      rcases ih (Nat.max a b) with h | h
      · rcases Nat.le_total a b with hab | hab
        · refine Or.inr ?_
          have hm : a.max b = b := max_eq_right hab
          rw [h, hm]
          exact List.mem_cons_self b rest
        · refine Or.inl ?_
          have hm : a.max b = a := max_eq_left hab
          rw [h, hm]
      · exact Or.inr (List.mem_cons_of_mem b h)

/-- C10 (confirmed): for a non-empty page list (and no cancel), the merge
produces a single white RGB canvas whose width is the maximum page width
(it bounds every page and is attained) and whose height is the sum of the
page heights; page `k` is pasted in input order at
`x = (max_width - w_k) / 2` and `y = h_0 + ... + h_(k-1)`. -/
theorem c10_merge_geometry (images : List Img) (cancelAt : Nat → Bool)
    (hne : images ≠ []) (hc : ∀ i, cancelAt i = false) :
    ∃ M, mergeImagesFast images cancelAt = some M ∧
      M.mode = "RGB" ∧ M.background = "white" ∧
      (∀ img ∈ images, img.w ≤ M.width) ∧
      (∃ img ∈ images, M.width = img.w) ∧
      M.height = (images.map Img.h).sum ∧
      M.pastes.length = images.length ∧
      (∀ (k : Nat) (img : Img), images.get? k = some img →
        M.pastes.get? k =
          some { x := (M.width - img.w) / 2,
                 y := ((images.take k).map Img.h).sum, img := img }) := by
  have hie : images.isEmpty = false := by
    cases images with
    | nil => exact absurd rfl hne
    | cons a l => rfl
  refine ⟨{ mode := "RGB", background := "white",
            width := (images.map Img.w).foldl Nat.max 0,
            height := (images.map Img.h).sum,
            pastes := layout ((images.map Img.w).foldl Nat.max 0) 0 images },
    ?_, rfl, rfl, ?_, ?_, rfl, ?_, ?_⟩
  · simp only [mergeImagesFast, hie, Bool.false_eq_true, if_false]
    rw [mergeGo_eq_layout cancelAt hc]
    rfl
  · intro img hm
    exact mem_le_foldl_max (images.map Img.w) 0 img.w (List.mem_map_of_mem Img.w hm)
  · rcases foldl_max_eq_or_mem (images.map Img.w) 0 with h | h
    · cases images with
      | nil => exact absurd rfl hne
      | cons a rest =>
          refine ⟨a, List.mem_cons_self a rest, ?_⟩
          have ha : a.w ≤ ((a :: rest).map Img.w).foldl Nat.max 0 :=
            mem_le_foldl_max _ 0 a.w (List.mem_map_of_mem Img.w (List.mem_cons_self a rest))
          show ((a :: rest).map Img.w).foldl Nat.max 0 = a.w
          omega
    · rcases List.mem_map.mp h with ⟨img, hmem, heq⟩
      exact ⟨img, hmem, heq.symm⟩
  · exact layout_length ((images.map Img.w).foldl Nat.max 0) images 0
  · intro k img hk
    have h := layout_get? ((images.map Img.w).foldl Nat.max 0) images k 0 img hk
    simpa using h

/-- C10, witness: the geometry theorem instantiated at a concrete two-page
list with the cancel flag never set. -/
theorem c10_merge_geometry_witness :
    ∃ M, mergeImagesFast imgs10 (fun _ => false) = some M ∧
      M.mode = "RGB" ∧ M.background = "white" ∧
      (∀ img ∈ imgs10, img.w ≤ M.width) ∧
      (∃ img ∈ imgs10, M.width = img.w) ∧
      M.height = (imgs10.map Img.h).sum ∧
      M.pastes.length = imgs10.length ∧
      (∀ (k : Nat) (img : Img), imgs10.get? k = some img →
        M.pastes.get? k =
          some { x := (M.width - img.w) / 2,
                 y := ((imgs10.take k).map Img.h).sum, img := img }) :=
  c10_merge_geometry imgs10 (fun _ => false) (by decide) (fun _ => rfl)

end File2LongImage
